import Mathlib

/-!
Verification development for the DirPurge repository.

The definitions below are a shallow embedding of the Python sources:
  - `src/src/models.py`        (FileInfo, PurgeResult)
  - `src/src/purge_engine.py`  (PurgeEngine: retention rules and purge execution)
  - `src/src/file_scanner.py`  (FileScanner: scanning, extension filter, grouping)
  - `src/src/reporter.py`      (Reporter.format_filename)

Timestamps (`datetime`) are modelled as integers counting seconds; a
`timedelta(days = d)` is `86400 * d` seconds.  The filesystem touched by
`os.remove` and `os.scandir` is modelled explicitly as data.
-/

/-- Embeds `FileInfo` from `src/src/models.py`.  The Python field `prefix`
(the part of the name before the first `__`) is called `group_key` here,
following the spec's terminology, because its Python name is a reserved
word in Lean.  `modified_time` is a timestamp in seconds. -/
structure FileInfo where
  path : String
  name : String
  group_key : String
  size : Nat
  modified_time : Int
  extension : String
deriving DecidableEq, Repr

/-- Embeds the purge-relevant fields of `PurgeResult` from `src/src/models.py`.
`execution_time` is wall-clock time in the Python code; the model does not
measure time, so the field is carried but always set to `0`. -/
structure PurgeResult where
  total_files_scanned : Nat
  file_sets_found : Nat
  files_to_delete : List FileInfo
  files_preserved : List FileInfo
  actual_deletions : Nat
  errors : List String
  execution_time : Int
deriving DecidableEq, Repr

/-- Embeds the two configuration fields of `PurgeEngine.__init__`
(`src/src/purge_engine.py`, lines 12-15). -/
structure PurgeEngine where
  min_files_to_keep : Nat
  max_age_days : Nat
deriving DecidableEq, Repr

/-- One day of `timedelta(days = 1)`, in seconds. -/
def secondsPerDay : Int := 86400

/-- Embeds `PurgeEngine._sort_files_by_date` (`src/src/purge_engine.py`,
lines 52-54): `sorted(files, key=lambda f: f.modified_time, reverse=True)`.
Python's `sorted` is a stable sort; with `reverse=True` it yields the
records newest first with ties kept in input order, which is exactly
`mergeSort` under the relation `b.modified_time ≤ a.modified_time`. -/
def sortFilesByDate (files : List FileInfo) : List FileInfo :=
  files.mergeSort (fun a b => decide (b.modified_time ≤ a.modified_time))

/-- The age threshold computed in `_apply_preservation_rules` line 38:
`datetime.now() - timedelta(days=self.max_age_days)`. -/
def ageThreshold (now : Int) (max_age_days : Nat) : Int :=
  now - secondsPerDay * max_age_days

/-- The preservation test of `_apply_preservation_rules` line 45:
`i < self.min_files_to_keep or file_info.modified_time > age_threshold`. -/
def preservationCondition (minKeep : Nat) (thr : Int) (i : Nat) (f : FileInfo) : Bool :=
  decide (i < minKeep) || decide (f.modified_time > thr)

/-- The indexed loop of `_apply_preservation_rules` lines 43-48: walk the
sorted list with `enumerate`, appending each record to the preserve list
when the preservation condition holds and to the delete list otherwise. -/
def purgeLoop (minKeep : Nat) (thr : Int) (i : Nat) :
    List FileInfo → List FileInfo × List FileInfo
  | [] => ([], [])
  | f :: rest =>
    let r := purgeLoop minKeep thr (i + 1) rest
    if preservationCondition minKeep thr i f then (f :: r.1, r.2) else (r.1, f :: r.2)

/-- Embeds `PurgeEngine._apply_preservation_rules` (`src/src/purge_engine.py`,
lines 29-50).  Returns `(files_to_preserve, files_to_delete)`. -/
def applyPreservationRules (e : PurgeEngine) (now : Int) (files : List FileInfo) :
    List FileInfo × List FileInfo :=
  if files.isEmpty then ([], [])
  else
    let sorted_files := sortFilesByDate files
    let age_threshold := ageThreshold now e.max_age_days
    purgeLoop e.min_files_to_keep age_threshold 0 sorted_files

/-- Embeds `PurgeEngine.determine_files_to_purge` (`src/src/purge_engine.py`,
lines 17-27): apply the preservation rules per group and concatenate,
returning `(files_to_delete, files_to_preserve)`. -/
def determineFilesToPurge (e : PurgeEngine) (now : Int)
    (file_groups : List (String × List FileInfo)) : List FileInfo × List FileInfo :=
  file_groups.foldl
    (fun acc g =>
      let r := applyPreservationRules e now g.2
      (acc.1 ++ r.2, acc.2 ++ r.1))
    ([], [])

/-- The sort relation is transitive. -/
theorem sortRel_trans (a b c : FileInfo)
    (hab : decide (b.modified_time ≤ a.modified_time) = true)
    (hbc : decide (c.modified_time ≤ b.modified_time) = true) :
    decide (c.modified_time ≤ a.modified_time) = true := by
  simp only [decide_eq_true_eq] at *
  exact le_trans hbc hab

/-- The sort relation is total. -/
theorem sortRel_total (a b : FileInfo) :
    (decide (b.modified_time ≤ a.modified_time) ||
      decide (a.modified_time ≤ b.modified_time)) = true := by
  rcases le_total a.modified_time b.modified_time with h | h <;> simp [h]

/-- The enumerate loop is exactly a filter over the enumerated list:
the preserve side selects the indexed records satisfying the preservation
condition and the delete side the rest, both in order. -/
theorem purgeLoop_eq_filter (minKeep : Nat) (thr : Int) (k : Nat) (l : List FileInfo) :
    purgeLoop minKeep thr k l =
      (((l.enumFrom k).filter fun p => preservationCondition minKeep thr p.1 p.2).map Prod.snd,
       ((l.enumFrom k).filter fun p => !preservationCondition minKeep thr p.1 p.2).map Prod.snd) := by
  induction l generalizing k with
  | nil => simp [purgeLoop]
  | cons f rest ih =>
    simp only [purgeLoop, List.enumFrom_cons, List.filter_cons, ih k.succ]
    by_cases h : preservationCondition minKeep thr k f = true
    · simp [h]
    · simp [Bool.not_eq_true] at h
      simp [h]

/-- Mapping the second projection over an enumerated list recovers the list. -/
theorem enumFrom_snd {α : Type} (k : Nat) (l : List α) :
    (l.enumFrom k).map Prod.snd = l := by
  induction l generalizing k with
  | nil => simp
  | cons f rest ih => simp [List.enumFrom_cons, ih]

/-- The two halves of the loop output, concatenated, are a permutation of
the input list. -/
theorem purgeLoop_append_perm (minKeep : Nat) (thr : Int) (k : Nat) (l : List FileInfo) :
    ((purgeLoop minKeep thr k l).1 ++ (purgeLoop minKeep thr k l).2).Perm l := by
  rw [purgeLoop_eq_filter]
  have h1 := List.filter_append_perm
    (fun p => preservationCondition minKeep thr p.1 p.2) (l.enumFrom k)
  have h2 := (h1.map Prod.snd)
  rw [List.map_append] at h2
  rw [enumFrom_snd] at h2
  exact h2

/-- The preserve half of the loop output is a subsequence of the input. -/
theorem purgeLoop_fst_sublist (minKeep : Nat) (thr : Int) (k : Nat) (l : List FileInfo) :
    (purgeLoop minKeep thr k l).1.Sublist l := by
  rw [purgeLoop_eq_filter]
  have h := (List.filter_sublist (p := fun p =>
    preservationCondition minKeep thr p.1 p.2) (l.enumFrom k)).map Prod.snd
  rwa [enumFrom_snd] at h

/-- The delete half of the loop output is a subsequence of the input. -/
theorem purgeLoop_snd_sublist (minKeep : Nat) (thr : Int) (k : Nat) (l : List FileInfo) :
    (purgeLoop minKeep thr k l).2.Sublist l := by
  rw [purgeLoop_eq_filter]
  have h := (List.filter_sublist (p := fun p =>
    !preservationCondition minKeep thr p.1 p.2) (l.enumFrom k)).map Prod.snd
  rwa [enumFrom_snd] at h

/-- Preserve and delete outputs of the rules, concatenated, permute the input. -/
theorem applyPreservationRules_perm (e : PurgeEngine) (now : Int) (files : List FileInfo) :
    ((applyPreservationRules e now files).1 ++ (applyPreservationRules e now files).2).Perm
      files := by
  unfold applyPreservationRules
  by_cases h : files.isEmpty
  · simp [h, List.isEmpty_iff.mp h]
  · simp only [h, if_false]
    exact (purgeLoop_append_perm _ _ 0 _).trans
      (List.mergeSort_perm files _)

/-- C1: in a non-empty group, after the newest-first sort, the record at
0-based index `i` goes to the preserve list iff `i < min_files_to_keep` OR
its modified time is strictly greater than `now - max_age_days` (for
`max_age_days = 0` the threshold is `now` itself); all other records go to
the purge list, in order.  The preserve side of `applyPreservationRules`
is exactly the filter of the enumerated sorted list by the disjunction of
the two conditions, and the purge side the filter by its negation. -/
theorem preservation_rule_index_iff (e : PurgeEngine) (now : Int) (files : List FileInfo)
    (h : files ≠ []) :
    applyPreservationRules e now files =
      (((sortFilesByDate files).enum.filter fun p =>
          decide (p.1 < e.min_files_to_keep) ||
            decide (p.2.modified_time > now - secondsPerDay * e.max_age_days)).map Prod.snd,
       ((sortFilesByDate files).enum.filter fun p =>
          !(decide (p.1 < e.min_files_to_keep) ||
            decide (p.2.modified_time > now - secondsPerDay * e.max_age_days))).map Prod.snd) := by
  have hne : files.isEmpty = false := by
    cases files with
    | nil => exact absurd rfl h
    | cons a l => rfl
  unfold applyPreservationRules
  rw [hne]
  simp only [Bool.false_eq_true, if_false]
  rw [purgeLoop_eq_filter]
  rfl

/-- Witness for C1 at a concrete one-element group. -/
theorem preservation_rule_index_iff_witness :
    ([(⟨"d/a__b.dat", "a__b.dat", "a", 3, 100, ".DAT"⟩ : FileInfo)] ≠ ([] : List FileInfo)) ∧
    applyPreservationRules ⟨1, 0⟩ 0 [⟨"d/a__b.dat", "a__b.dat", "a", 3, 100, ".DAT"⟩] =
      (((sortFilesByDate [⟨"d/a__b.dat", "a__b.dat", "a", 3, 100, ".DAT"⟩]).enum.filter fun p =>
          decide (p.1 < 1) || decide (p.2.modified_time > 0 - secondsPerDay * 0)).map Prod.snd,
       ((sortFilesByDate [⟨"d/a__b.dat", "a__b.dat", "a", 3, 100, ".DAT"⟩]).enum.filter fun p =>
          !(decide (p.1 < 1) || decide (p.2.modified_time > 0 - secondsPerDay * 0))).map Prod.snd) :=
  ⟨by decide, preservation_rule_index_iff ⟨1, 0⟩ 0 _ (by decide)⟩

/-- C2: for a group of distinct records, the preserve and purge lists
partition the group: lengths sum to the group size, every record is in
exactly one of the two lists, neither list contains a duplicate, and the
empty group yields two empty lists. -/
theorem retention_partition (e : PurgeEngine) (now : Int) (files : List FileInfo)
    (hnd : files.Nodup) :
    ((applyPreservationRules e now files).1.length +
        (applyPreservationRules e now files).2.length = files.length) ∧
    (∀ f, f ∈ files ↔
        (f ∈ (applyPreservationRules e now files).1 ∨
          f ∈ (applyPreservationRules e now files).2)) ∧
    (∀ f, ¬(f ∈ (applyPreservationRules e now files).1 ∧
        f ∈ (applyPreservationRules e now files).2)) ∧
    (applyPreservationRules e now files).1.Nodup ∧
    (applyPreservationRules e now files).2.Nodup ∧
    applyPreservationRules e now ([] : List FileInfo) = ([], []) := by
  have hp := applyPreservationRules_perm e now files
  have hnd2 : ((applyPreservationRules e now files).1 ++
      (applyPreservationRules e now files).2).Nodup := hp.symm.nodup hnd
  refine ⟨?_, ?_, ?_, hnd2.of_append_left, hnd2.of_append_right, rfl⟩
  · have := hp.length_eq
    simpa using this
  · intro f
    have := hp.mem_iff (a := f)
    simpa [List.mem_append] using this.symm
  · intro f hf
    exact List.disjoint_of_nodup_append hnd2 hf.1 hf.2

/-- Witness for C2 at a concrete two-element group. -/
theorem retention_partition_witness :
    ([(⟨"a", "a__1", "a", 0, 10, ".X"⟩ : FileInfo), ⟨"b", "b__1", "b", 0, 3, ".X"⟩] :
        List FileInfo).Nodup ∧
    ((applyPreservationRules ⟨0, 0⟩ 5
        [⟨"a", "a__1", "a", 0, 10, ".X"⟩, ⟨"b", "b__1", "b", 0, 3, ".X"⟩]).1.length +
      (applyPreservationRules ⟨0, 0⟩ 5
        [⟨"a", "a__1", "a", 0, 10, ".X"⟩, ⟨"b", "b__1", "b", 0, 3, ".X"⟩]).2.length = 2) :=
  ⟨by decide,
    (retention_partition ⟨0, 0⟩ 5
      [⟨"a", "a__1", "a", 0, 10, ".X"⟩, ⟨"b", "b__1", "b", 0, 3, ".X"⟩] (by decide)).1⟩

/-- C9: the retention step sorts by modified time descending; the sort is
stable (records with equal timestamps keep their original relative order)
and idempotent (sorting an already produced order again returns it
unchanged, so repeated sorting of the same input is deterministic); the
preserve and purge lists are both subsequences of that sorted order. -/
theorem sort_stable_and_outputs_sublists (e : PurgeEngine) (now : Int)
    (files : List FileInfo) :
    (sortFilesByDate files).Pairwise
        (fun a b => b.modified_time ≤ a.modified_time) ∧
    (∀ a b : FileInfo, a.modified_time = b.modified_time →
        [a, b].Sublist files → [a, b].Sublist (sortFilesByDate files)) ∧
    sortFilesByDate (sortFilesByDate files) = sortFilesByDate files ∧
    (applyPreservationRules e now files).1.Sublist (sortFilesByDate files) ∧
    (applyPreservationRules e now files).2.Sublist (sortFilesByDate files) := by
  have hs := @List.sorted_mergeSort FileInfo
    (fun a b => decide (b.modified_time ≤ a.modified_time))
    sortRel_trans sortRel_total files
  refine ⟨?_, ?_, ?_, ?_, ?_⟩
  · exact hs.imp (fun h => by simpa using h)
  · intro a b hab hsub
    have hpair : List.Pairwise
        (fun x y : FileInfo => decide (y.modified_time ≤ x.modified_time) = true) [a, b] := by
      simp [List.pairwise_cons, hab.ge]
    exact @List.sublist_mergeSort FileInfo
      (fun x y => decide (y.modified_time ≤ x.modified_time)) files
      sortRel_trans sortRel_total [a, b] hpair hsub
  · exact List.mergeSort_of_sorted hs
  · unfold applyPreservationRules
    by_cases hf : files.isEmpty
    · simp [hf]
    · simp only [hf, Bool.false_eq_true, if_false]
      exact purgeLoop_fst_sublist _ _ 0 _
  · unfold applyPreservationRules
    by_cases hf : files.isEmpty
    · simp [hf]
    · simp only [hf, Bool.false_eq_true, if_false]
      exact purgeLoop_snd_sublist _ _ 0 _

/-- The filesystem visible to `os.remove`: the set of existing file paths,
plus the paths whose deletion raises `PermissionError`.  Any other failure
mode of `os.remove` is an `OSError`; both exception classes are caught by
`execute_purge`, so two failure shapes suffice. -/
structure FileSystem where
  existing : List String
  locked : List String
deriving DecidableEq, Repr

/-- Models `os.remove(path)`: removing a missing path raises
`FileNotFoundError` (an `OSError`), removing a locked path raises
`PermissionError`, otherwise the file disappears from the filesystem. -/
def osRemove (fs : FileSystem) (path : String) : Except String FileSystem :=
  if !fs.existing.contains path then
    .error ("[Errno 2] No such file or directory: " ++ path)
  else if fs.locked.contains path then
    .error ("[Errno 13] Permission denied: " ++ path)
  else
    .ok ⟨fs.existing.erase path, fs.locked⟩

/-- The error message built at `src/src/purge_engine.py` line 82 for a
failed deletion. -/
def deleteErrorMsg (path : String) (e : String) : String :=
  "Failed to delete " ++ path ++ ": " ++ e

/-- The non-dry-run loop of `execute_purge` (`src/src/purge_engine.py`,
lines 69-84): try `os.remove` on each record in turn; on success increment
`actual_deletions`, on a caught `OSError`/`PermissionError` append one
error message and continue with the next record.  Returns the final
filesystem, the deletion count and the error list. -/
def executePurgeLoop (fs : FileSystem) :
    List FileInfo → FileSystem × Nat × List String
  | [] => (fs, 0, [])
  | f :: rest =>
    match osRemove fs f.path with
    | .ok fs2 =>
      let r := executePurgeLoop fs2 rest
      (r.1, r.2.1 + 1, r.2.2)
    | .error e =>
      let r := executePurgeLoop fs rest
      (r.1, r.2.1, deleteErrorMsg f.path e :: r.2.2)

/-- Embeds `PurgeEngine.execute_purge` (`src/src/purge_engine.py`, lines
56-99).  In dry-run mode no file is touched and `actual_deletions` is set
to the length of the purge list with no errors; otherwise the deletion
loop runs.  Progress printing is ignored (pure observability) and
`execution_time` is not modelled (always 0). -/
def executePurge (fs : FileSystem) (files_to_delete : List FileInfo)
    (dry_run : Bool) : FileSystem × PurgeResult :=
  if !dry_run then
    let r := executePurgeLoop fs files_to_delete
    (r.1, ⟨0, 0, files_to_delete, [], r.2.1, r.2.2, 0⟩)
  else
    (fs, ⟨0, 0, files_to_delete, [], files_to_delete.length, [], 0⟩)

/-- C4: a dry run removes nothing — the filesystem is returned unchanged —
while the result still reports `actual_deletions` equal to the size of the
purge list and an empty error list. -/
theorem dry_run_safety (fs : FileSystem) (files : List FileInfo) :
    (executePurge fs files true).1 = fs ∧
    (executePurge fs files true).2.actual_deletions = files.length ∧
    (executePurge fs files true).2.errors = [] := by
  refine ⟨rfl, rfl, rfl⟩

/-- C7: non-dry-run purging is a best-effort batch.  Processing a purge
list decomposes over concatenation: the records after any point are still
attempted with the filesystem left by the earlier records, the deletion
counts add, and the error lists concatenate — so no single failure aborts
the rest.  Moreover a record whose removal fails contributes exactly one
human-readable error string, and the call returns normally with it. -/
theorem best_effort_batch (fs : FileSystem) (l₁ l₂ : List FileInfo) :
    ((executePurge fs (l₁ ++ l₂) false).1 =
        (executePurge ((executePurge fs l₁ false).1) l₂ false).1 ∧
      (executePurge fs (l₁ ++ l₂) false).2.actual_deletions =
        (executePurge fs l₁ false).2.actual_deletions +
          (executePurge ((executePurge fs l₁ false).1) l₂ false).2.actual_deletions ∧
      (executePurge fs (l₁ ++ l₂) false).2.errors =
        (executePurge fs l₁ false).2.errors ++
          (executePurge ((executePurge fs l₁ false).1) l₂ false).2.errors) ∧
    (∀ (g : FileSystem) (f : FileInfo) (e : String), osRemove g f.path = .error e →
      (executePurge g [f] false).2.errors = [deleteErrorMsg f.path e] ∧
        (executePurge g [f] false).1 = g) := by
  constructor
  · have key : ∀ (g : FileSystem) (a b : List FileInfo),
        executePurgeLoop g (a ++ b) =
          ((executePurgeLoop (executePurgeLoop g a).1 b).1,
           (executePurgeLoop g a).2.1 + (executePurgeLoop (executePurgeLoop g a).1 b).2.1,
           (executePurgeLoop g a).2.2 ++ (executePurgeLoop (executePurgeLoop g a).1 b).2.2) := by
      intro g a b
      induction a generalizing g with
      | nil => simp [executePurgeLoop]
      | cons f rest ih =>
        simp only [List.cons_append, executePurgeLoop]
        cases osRemove g f.path with
        | ok fs2 => simp [executePurgeLoop, ih fs2, Nat.add_assoc, Nat.add_comm 1]
        | error e => simp [executePurgeLoop, ih g]
    refine ⟨?_, ?_, ?_⟩ <;>
      simp [executePurge, key fs l₁ l₂]
  · intro g f e he
    simp [executePurge, executePurgeLoop, he]

/-- Witness for C7 at a concrete filesystem where the middle record's
deletion fails and the later record is still deleted. -/
theorem best_effort_batch_witness :
    ((executePurge ⟨["a", "c"], []⟩
        ([⟨"a", "a", "a", 0, 0, ""⟩, ⟨"b", "b", "b", 0, 0, ""⟩] ++
          [⟨"c", "c", "c", 0, 0, ""⟩]) false).2.actual_deletions = 2) ∧
    (osRemove ⟨["a", "c"], []⟩ "b" =
      .error ("[Errno 2] No such file or directory: " ++ "b")) ∧
    ((executePurge ⟨["a", "c"], []⟩ [⟨"b", "b", "b", 0, 0, ""⟩] false).2.errors =
      [deleteErrorMsg "b" ("[Errno 2] No such file or directory: " ++ "b")]) := by
  have h := best_effort_batch ⟨["a", "c"], []⟩
    [⟨"a", "a", "a", 0, 0, ""⟩, ⟨"b", "b", "b", 0, 0, ""⟩] [⟨"c", "c", "c", 0, 0, ""⟩]
  refine ⟨?_, rfl, ?_⟩
  · rw [h.1.2.1]
    decide
  · exact (h.2 ⟨["a", "c"], []⟩ ⟨"b", "b", "b", 0, 0, ""⟩
      ("[Errno 2] No such file or directory: " ++ "b") rfl).1

/-- C10: in a non-dry-run call every input record yields exactly one
outcome — a counted deletion or one error string — so the deletion count
plus the number of errors equals the length of the purge list. -/
theorem one_outcome_per_record (fs : FileSystem) (files : List FileInfo) :
    (executePurge fs files false).2.actual_deletions +
      (executePurge fs files false).2.errors.length = files.length := by
  have key : ∀ (g : FileSystem) (l : List FileInfo),
      (executePurgeLoop g l).2.1 + (executePurgeLoop g l).2.2.length = l.length := by
    intro g l
    induction l generalizing g with
    | nil => simp [executePurgeLoop]
    | cons f rest ih =>
      simp only [executePurgeLoop]
      cases osRemove g f.path with
      | ok fs2 =>
        have := ih fs2
        simp only [List.length_cons]
        omega
      | error e =>
        have := ih g
        simp only [List.length_cons]
        omega
  simpa [executePurge] using key fs files

/-- The result of `entry.stat()`: file size and modification time. -/
structure StatResult where
  st_size : Nat
  st_mtime : Int
deriving DecidableEq, Repr

/-- Models an `os.DirEntry` seen by `_extract_file_info`: the entry name,
whether `entry.is_file()` holds, and the result of `entry.stat()` —
`none` models an `OSError`/`PermissionError` raised by the `stat` call. -/
structure DirEntry where
  name : String
  is_file : Bool
  stat : Option StatResult
deriving DecidableEq, Repr

/-- Characters before the first occurrence of `__`, or `none` when there
is no occurrence. -/
def takeUntilDunder : List Char → Option (List Char)
  | [] => none
  | '_' :: '_' :: _ => some []
  | c :: rest => (takeUntilDunder rest).map (fun cs => c :: cs)

/-- Embeds lines 50-54 of `src/src/file_scanner.py`: when `"__" in name`,
the group key is `name.split("__")[0]`, the substring before the first
occurrence of `__`; otherwise the file is skipped (`none`). -/
def extractGroupKey (name : String) : Option String :=
  (takeUntilDunder name.data).map (fun cs => String.mk cs)

/-- Index of the last `.` in the character list, counting from `i`. -/
def lastDotIndexAux : List Char → Nat → Option Nat
  | [], _ => none
  | c :: rest, i =>
    match lastDotIndexAux rest (i + 1) with
    | some j => some j
    | none => if c = '.' then some i else none

/-- Embeds `pathlib.PurePath.suffix` for a bare file name: the substring
from the last dot, unless that dot is the first or last character. -/
def pathSuffix (name : String) : String :=
  match lastDotIndexAux name.data 0 with
  | some i =>
    if 0 < i ∧ i < name.data.length - 1 then String.mk (name.data.drop i) else ""
  | none => ""

/-- Embeds Python's `str.upper()` (the repository only uses it on ASCII
extension strings, where Lean's `Char.toUpper` agrees with Python). -/
def strUpper (s : String) : String :=
  String.mk (s.data.map Char.toUpper)

/-- Embeds the body of the per-entry loop of `_extract_file_info`
(`src/src/file_scanner.py`, lines 42-69): skip non-files, skip entries
whose `stat` raises, skip names without `__`, and otherwise build the
`FileInfo` with `path = directory/name` and the uppercased suffix. -/
def extractOne (directory_path : String) (e : DirEntry) : Option FileInfo :=
  if e.is_file then
    match e.stat with
    | none => none
    | some st =>
      match extractGroupKey e.name with
      | none => none
      | some k =>
        some ⟨directory_path ++ "/" ++ e.name, e.name, k, st.st_size, st.st_mtime,
          strUpper (pathSuffix e.name)⟩
  else none

/-- Embeds the loop of `_extract_file_info` over the `os.scandir` entries:
entries that are skipped (non-file, failed `stat`, no `__` in the name)
contribute nothing and scanning continues. -/
def extractFileInfo (directory_path : String) : List DirEntry → List FileInfo
  | [] => []
  | e :: rest =>
    match extractOne directory_path e with
    | some fi => fi :: extractFileInfo directory_path rest
    | none => extractFileInfo directory_path rest

/-- The default exclusion list of `FileScanner.__init__`. -/
def defaultExcludedExtensions : List String := [".PL", ".TXT", ".CSV", ".ZIP"]

/-- The scanner state after `__init__`. -/
structure FileScanner where
  excluded_extensions : List String
deriving DecidableEq, Repr

/-- Embeds `FileScanner.__init__` (`src/src/file_scanner.py`, lines 13-17):
`excluded_extensions or default` — Python's `or` substitutes the default
both for `None` and for an empty list — then uppercase every entry. -/
def mkFileScanner (excluded_extensions : Option (List String)) : FileScanner :=
  let exts :=
    match excluded_extensions with
    | none => defaultExcludedExtensions
    | some l => if l.isEmpty then defaultExcludedExtensions else l
  ⟨exts.map strUpper⟩

/-- Embeds `FileScanner._filter_by_extensions` (lines 76-78): keep the
records whose `extension` is not in the excluded list. -/
def filterByExtensions (s : FileScanner) (files : List FileInfo) : List FileInfo :=
  files.filter (fun f => !s.excluded_extensions.contains f.extension)

/-- One step of `_group_files_by_prefix` (lines 80-90): append the record
to the group with its key, creating the group at the end when absent
(Python dicts preserve insertion order). -/
def addToGroups (groups : List (String × List FileInfo)) (f : FileInfo) :
    List (String × List FileInfo) :=
  if groups.any (fun g => g.1 == f.group_key) then
    groups.map (fun g => if g.1 == f.group_key then (g.1, g.2 ++ [f]) else g)
  else
    groups ++ [(f.group_key, [f])]

/-- Embeds `FileScanner._group_files_by_prefix`: fold the records into an
association list keyed by group key. -/
def groupFilesByKey (files : List FileInfo) : List (String × List FileInfo) :=
  files.foldl addToGroups []

/-- The state of the target path as seen by `scan_directory`:
missing, not a directory, unreadable (`os.scandir` raising with the given
detail), or readable with a list of entries. -/
inductive DirectoryState where
  | missing : DirectoryState
  | notDirectory : DirectoryState
  | unreadable (detail : String) : DirectoryState
  | readable (entries : List DirEntry) : DirectoryState
deriving DecidableEq, Repr

/-- Embeds `FileScanner.scan_directory` (`src/src/file_scanner.py`, lines
19-34): the three directory-level failures raise `ValueError` with a
message naming the offending path, modelled as `Except.error`; otherwise
extract, filter by extension, and group. -/
def scanDirectory (s : FileScanner) (directory_path : String)
    (dir : DirectoryState) : Except String (List (String × List FileInfo)) :=
  match dir with
  | .missing => .error ("Directory does not exist: " ++ directory_path)
  | .notDirectory => .error ("Path is not a directory: " ++ directory_path)
  | .unreadable detail =>
    .error ("Cannot access directory " ++ directory_path ++ ": " ++ detail)
  | .readable entries =>
    .ok (groupFilesByKey (filterByExtensions s (extractFileInfo directory_path entries)))

/-- An extracted record carries the name of its entry, and its group key is
the substring of that name before the first `__`. -/
theorem extractOne_name_key (p : String) (e : DirEntry) (fi : FileInfo)
    (h : extractOne p e = some fi) :
    fi.name = e.name ∧ extractGroupKey e.name = some fi.group_key := by
  unfold extractOne at h
  split at h
  · split at h
    · exact absurd h (by simp)
    · split at h
      · exact absurd h (by simp)
      · rename_i st hst k hk
        cases h
        exact ⟨rfl, hk⟩
  · exact absurd h (by simp)

/-- Every record produced by the extraction loop comes from some entry. -/
theorem mem_extractFileInfo (p : String) (entries : List DirEntry) (f : FileInfo)
    (hf : f ∈ extractFileInfo p entries) :
    ∃ e ∈ entries, extractOne p e = some f := by
  induction entries with
  | nil => simp [extractFileInfo] at hf
  | cons e rest ih =>
    simp only [extractFileInfo] at hf
    cases he : extractOne p e with
    | some fi =>
      rw [he] at hf
      rcases List.mem_cons.mp hf with h | h
      · exact ⟨e, List.mem_cons_self .., by rw [he, h]⟩
      · rcases ih h with ⟨e2, he2, hx⟩
        exact ⟨e2, List.mem_cons_of_mem _ he2, hx⟩
    | none =>
      rw [he] at hf
      rcases ih hf with ⟨e2, he2, hx⟩
      exact ⟨e2, List.mem_cons_of_mem _ he2, hx⟩

/-- Adding a record keeps every group's members keyed by the group's key. -/
theorem addToGroups_key_sound (gs : List (String × List FileInfo)) (f : FileInfo)
    (h : ∀ g ∈ gs, ∀ x ∈ g.2, x.group_key = g.1) :
    ∀ g ∈ addToGroups gs f, ∀ x ∈ g.2, x.group_key = g.1 := by
  intro g hg x hx
  unfold addToGroups at hg
  split at hg
  · rcases List.mem_map.mp hg with ⟨g0, hg0, hmap⟩
    by_cases hk : g0.1 == f.group_key
    · rw [if_pos hk] at hmap
      subst hmap
      rcases List.mem_append.mp hx with h2 | h2
      · exact h g0 hg0 x h2
      · rw [List.mem_singleton.mp h2]
        exact (eq_of_beq hk).symm
    · rw [if_neg hk] at hmap
      subst hmap
      exact h g0 hg0 x hx
  · rcases List.mem_append.mp hg with h2 | h2
    · exact h g h2 x hx
    · rw [List.mem_singleton.mp h2] at hx ⊢
      rw [List.mem_singleton.mp hx]

/-- Adding a record never removes an existing member from its group. -/
theorem addToGroups_mem_preserved (gs : List (String × List FileInfo)) (f x : FileInfo)
    (g : String × List FileInfo) (hg : g ∈ gs) (hx : x ∈ g.2) :
    ∃ g2 ∈ addToGroups gs f, x ∈ g2.2 ∧ g2.1 = g.1 := by
  unfold addToGroups
  split
  · refine ⟨if g.1 == f.group_key then (g.1, g.2 ++ [f]) else g,
      List.mem_map_of_mem _ hg, ?_⟩
    by_cases hk : g.1 == f.group_key
    · rw [if_pos hk]
      exact ⟨List.mem_append_left _ hx, rfl⟩
    · rw [if_neg hk]
      exact ⟨hx, rfl⟩
  · exact ⟨g, List.mem_append_left _ hg, hx, rfl⟩

/-- The record just added is a member of the group carrying its key. -/
theorem addToGroups_new_mem (gs : List (String × List FileInfo)) (f : FileInfo) :
    ∃ g ∈ addToGroups gs f, f ∈ g.2 ∧ g.1 = f.group_key := by
  unfold addToGroups
  split
  · rename_i hany
    rcases List.any_eq_true.mp hany with ⟨g0, hg0, hk⟩
    refine ⟨(g0.1, g0.2 ++ [f]), ?_, List.mem_append_right _ (List.mem_singleton_self _),
      eq_of_beq hk⟩
    have : (if g0.1 == f.group_key then (g0.1, g0.2 ++ [f]) else g0) = (g0.1, g0.2 ++ [f]) :=
      if_pos hk
    rw [← this]
    exact List.mem_map_of_mem _ hg0
  · exact ⟨(f.group_key, [f]), List.mem_append_right _ (List.mem_singleton_self _),
      List.mem_singleton_self _, rfl⟩

/-- Every member of a group after an addition is the added record or was
already a member of some group. -/
theorem addToGroups_mem_src (gs : List (String × List FileInfo)) (f x : FileInfo)
    (g : String × List FileInfo) (hg : g ∈ addToGroups gs f) (hx : x ∈ g.2) :
    x = f ∨ ∃ g0 ∈ gs, x ∈ g0.2 := by
  unfold addToGroups at hg
  split at hg
  · rcases List.mem_map.mp hg with ⟨g0, hg0, hmap⟩
    by_cases hk : g0.1 == f.group_key
    · rw [if_pos hk] at hmap
      subst hmap
      rcases List.mem_append.mp hx with h2 | h2
      · exact Or.inr ⟨g0, hg0, h2⟩
      · exact Or.inl (List.mem_singleton.mp h2)
    · rw [if_neg hk] at hmap
      subst hmap
      exact Or.inr ⟨g0, hg0, hx⟩
  · rcases List.mem_append.mp hg with h2 | h2
    · exact Or.inr ⟨g, h2, hx⟩
    · rw [List.mem_singleton.mp h2] at hx
      exact Or.inl (List.mem_singleton.mp hx)

/-- Key soundness of the grouping fold. -/
theorem groupFold_key_sound (files : List FileInfo) (acc : List (String × List FileInfo))
    (hacc : ∀ g ∈ acc, ∀ x ∈ g.2, x.group_key = g.1) :
    ∀ g ∈ files.foldl addToGroups acc, ∀ x ∈ g.2, x.group_key = g.1 := by
  induction files generalizing acc with
  | nil => exact hacc
  | cons f rest ih =>
    exact ih (addToGroups acc f) (addToGroups_key_sound acc f hacc)

/-- Members of the accumulator survive the grouping fold with their key. -/
theorem groupFold_mem_preserved (files : List FileInfo)
    (acc : List (String × List FileInfo)) (x : FileInfo) (g : String × List FileInfo)
    (hg : g ∈ acc) (hx : x ∈ g.2) :
    ∃ g2 ∈ files.foldl addToGroups acc, x ∈ g2.2 ∧ g2.1 = g.1 := by
  induction files generalizing acc g with
  | nil => exact ⟨g, hg, hx, rfl⟩
  | cons f rest ih =>
    rcases addToGroups_mem_preserved acc f x g hg hx with ⟨g2, hg2, hx2, hfst⟩
    rcases ih (addToGroups acc f) g2 hg2 hx2 with ⟨g3, hg3, hx3, hfst3⟩
    exact ⟨g3, hg3, hx3, hfst3.trans hfst⟩

/-- Every folded record lands in the group carrying its key. -/
theorem groupFold_complete (files : List FileInfo) (acc : List (String × List FileInfo))
    (f : FileInfo) (hf : f ∈ files) :
    ∃ g ∈ files.foldl addToGroups acc, f ∈ g.2 ∧ g.1 = f.group_key := by
  induction files generalizing acc with
  | nil => simp at hf
  | cons x rest ih =>
    rcases List.mem_cons.mp hf with h | h
    · subst h
      rcases addToGroups_new_mem acc f with ⟨g, hg, hmem, hfst⟩
      rcases groupFold_mem_preserved rest (addToGroups acc f) f g hg hmem with
        ⟨g2, hg2, hmem2, hfst2⟩
      exact ⟨g2, hg2, hmem2, hfst2.trans hfst⟩
    · exact ih (addToGroups acc x) h

/-- Every member of any folded group is a folded record or came from the
accumulator. -/
theorem groupFold_mem_src (files : List FileInfo) (acc : List (String × List FileInfo))
    (x : FileInfo) (g : String × List FileInfo)
    (hg : g ∈ files.foldl addToGroups acc) (hx : x ∈ g.2) :
    x ∈ files ∨ ∃ g0 ∈ acc, x ∈ g0.2 := by
  induction files generalizing acc with
  | nil => exact Or.inr ⟨g, hg, hx⟩
  | cons f rest ih =>
    rcases ih (addToGroups acc f) hg with h | ⟨g0, hg0, hx0⟩
    · exact Or.inl (List.mem_cons_of_mem _ h)
    · rcases addToGroups_mem_src acc f x g0 hg0 hx0 with h | ⟨g1, hg1, hx1⟩
      · exact Or.inl (h ▸ List.mem_cons_self ..)
      · exact Or.inr ⟨g1, hg1, hx1⟩

/-- C3 counterexample: the claim says a file whose name starts with `__`
(so the substring before the first `__` is empty) appears in no group, but
the scanner groups it under the empty-string key: `"__" in name` is true,
so `name.split("__")[0] == ""` becomes the group key. -/
theorem grouping_empty_key_counterexample :
    extractGroupKey "__a.dat" = some "" ∧
    groupFilesByKey (extractFileInfo "d" [⟨"__a.dat", true, some ⟨1, 0⟩⟩]) =
      [("", [⟨"d/__a.dat", "__a.dat", "", 1, 0, ".DAT"⟩])] := by
  exact ⟨rfl, rfl⟩

/-- C3 (amended): a scanned file is assigned to the group keyed by the
substring preceding the first `__` of its name iff the name contains `__`
at all (the key may be the empty string); a file whose name contains no
`__` appears in no group.  Concretely: every group member's key is the
group's key and is the pre-`__` substring of its name; every extracted
record lands in the group of its key; and no group contains a record
named like an entry without `__`. -/
theorem grouping_by_first_dunder (p : String) (entries : List DirEntry) :
    (∀ g ∈ groupFilesByKey (extractFileInfo p entries), ∀ f ∈ g.2,
        f.group_key = g.1 ∧ extractGroupKey f.name = some f.group_key) ∧
    (∀ f ∈ extractFileInfo p entries,
        ∃ g ∈ groupFilesByKey (extractFileInfo p entries), g.1 = f.group_key ∧ f ∈ g.2) ∧
    (∀ e ∈ entries, extractGroupKey e.name = none →
        ∀ g ∈ groupFilesByKey (extractFileInfo p entries), ∀ f ∈ g.2, f.name ≠ e.name) := by
  refine ⟨?_, ?_, ?_⟩
  · intro g hg f hf
    have hkey := groupFold_key_sound (extractFileInfo p entries) [] (by simp) g hg f hf
    have hsrc := groupFold_mem_src (extractFileInfo p entries) [] f g hg hf
    rcases hsrc with h | h
    · rcases mem_extractFileInfo p entries f h with ⟨e, _, hone⟩
      rcases extractOne_name_key p e f hone with ⟨hname, hk⟩
      exact ⟨hkey, by rw [hname, hk]⟩
    · simp at h
  · intro f hf
    rcases groupFold_complete (extractFileInfo p entries) [] f hf with ⟨g, hg, hmem, hfst⟩
    exact ⟨g, hg, hfst, hmem⟩
  · intro e _ hnone g hg f hf hname
    have hsrc := groupFold_mem_src (extractFileInfo p entries) [] f g hg hf
    rcases hsrc with h | h
    · rcases mem_extractFileInfo p entries f h with ⟨e2, _, hone⟩
      rcases extractOne_name_key p e2 f hone with ⟨hname2, hk⟩
      rw [← hname2, hname, hnone] at hk
      exact Option.noConfusion hk
    · simp at h

/-- Witness for C3 (amended) at a single concrete entry. -/
theorem grouping_by_first_dunder_witness :
    ((⟨"d/a__b.dat", "a__b.dat", "a", 1, 5, ".DAT"⟩ : FileInfo) ∈
        extractFileInfo "d" [⟨"a__b.dat", true, some ⟨1, 5⟩⟩]) ∧
    (∃ g ∈ groupFilesByKey (extractFileInfo "d" [⟨"a__b.dat", true, some ⟨1, 5⟩⟩]),
        g.1 = (⟨"d/a__b.dat", "a__b.dat", "a", 1, 5, ".DAT"⟩ : FileInfo).group_key ∧
          (⟨"d/a__b.dat", "a__b.dat", "a", 1, 5, ".DAT"⟩ : FileInfo) ∈ g.2) :=
  ⟨by decide,
    (grouping_by_first_dunder "d" [⟨"a__b.dat", true, some ⟨1, 5⟩⟩]).2.1
      ⟨"d/a__b.dat", "a__b.dat", "a", 1, 5, ".DAT"⟩ (by decide)⟩

/-- C8: directory-level failures are fatal and distinct — `scan_directory`
signals an error naming the offending path for a missing path, a
non-directory path, and an unreadable directory — while a per-file `stat`
failure only skips that entry: extraction over the entry list with the
failing entry removed is unchanged, so scanning continues. -/
theorem scan_error_handling (s : FileScanner) (p : String) :
    (scanDirectory s p .missing = .error ("Directory does not exist: " ++ p)) ∧
    (scanDirectory s p .notDirectory = .error ("Path is not a directory: " ++ p)) ∧
    (∀ d, scanDirectory s p (.unreadable d) =
        .error ("Cannot access directory " ++ p ++ ": " ++ d)) ∧
    (∀ (l₁ l₂ : List DirEntry) (e : DirEntry), e.is_file = true → e.stat = none →
        extractFileInfo p (l₁ ++ e :: l₂) = extractFileInfo p (l₁ ++ l₂)) := by
  refine ⟨rfl, rfl, fun d => rfl, ?_⟩
  intro l₁ l₂ e hf hs
  induction l₁ with
  | nil => simp [extractFileInfo, extractOne, hf, hs]
  | cons x rest ih =>
    simp only [List.cons_append, extractFileInfo]
    cases hx : extractOne p x <;> simp [ih]

/-- Witness for C8: a concrete scan where the failing middle entry is
skipped and both neighbours are still extracted. -/
theorem scan_error_handling_witness :
    ((⟨"bad.dat", true, none⟩ : DirEntry).is_file = true) ∧
    ((⟨"bad.dat", true, none⟩ : DirEntry).stat = none) ∧
    extractFileInfo "d"
        ([⟨"a__1.dat", true, some ⟨1, 1⟩⟩] ++ (⟨"bad.dat", true, none⟩ : DirEntry) ::
          [⟨"b__2.dat", true, some ⟨2, 2⟩⟩]) =
      extractFileInfo "d" ([⟨"a__1.dat", true, some ⟨1, 1⟩⟩] ++ [⟨"b__2.dat", true, some ⟨2, 2⟩⟩]) :=
  ⟨rfl, rfl,
    (scan_error_handling (mkFileScanner none) "d").2.2.2
      [⟨"a__1.dat", true, some ⟨1, 1⟩⟩] [⟨"b__2.dat", true, some ⟨2, 2⟩⟩]
      ⟨"bad.dat", true, none⟩ rfl rfl⟩

/-- Membership in the extension filter's output. -/
theorem mem_filterByExtensions (L : List String) (files : List FileInfo) (f : FileInfo) :
    f ∈ filterByExtensions ⟨L⟩ files ↔ f ∈ files ∧ f.extension ∉ L := by
  simp [filterByExtensions, List.mem_filter, List.contains, List.elem_iff]

/-- C5 counterexample: with the empty exclusion set, `__init__`'s
`excluded_extensions or default` falls back to the default list (Python's
`or` treats `[]` as false), so a `.TXT` record is dropped even though
`.TXT` is not in the given set. -/
theorem extension_filter_empty_set_counterexample :
    filterByExtensions (mkFileScanner (some []))
        [⟨"d/a__b.txt", "a__b.txt", "a", 1, 0, ".TXT"⟩] = [] ∧
    (([] : List String).map strUpper).contains ".TXT" = false := by
  exact ⟨rfl, rfl⟩

/-- C5 (amended): for any NON-EMPTY exclusion list `E` and records whose
`extension` field is already uppercase-normalized (as the scanner makes
it), the filter removes exactly the records whose extension is in the
uppercased `E`: no survivor has its normalized extension in `E`, no record
with extension outside `E` is dropped, and membership in the output is
equivalent to no case-insensitive match against `E`.  (An empty or absent
exclusion list silently becomes the default `['.PL','.TXT','.CSV','.ZIP']`.) -/
theorem extension_filter_correct (E : List String) (files : List FileInfo)
    (hE : E ≠ [])
    (hnorm : ∀ f ∈ files, f.extension = strUpper f.extension) :
    (∀ f ∈ filterByExtensions (mkFileScanner (some E)) files,
        f.extension ∉ E.map strUpper) ∧
    (∀ f ∈ files, f.extension ∉ E.map strUpper →
        f ∈ filterByExtensions (mkFileScanner (some E)) files) ∧
    (∀ f ∈ files, (f ∈ filterByExtensions (mkFileScanner (some E)) files ↔
        ¬∃ x ∈ E, strUpper x = strUpper f.extension)) := by
  have hie : E.isEmpty = false := by
    cases E with
    | nil => exact absurd rfl hE
    | cons a l => rfl
  have hS : mkFileScanner (some E) = ⟨E.map strUpper⟩ := by
    simp [mkFileScanner, hie]
  refine ⟨?_, ?_, ?_⟩
  · intro f hf
    rw [hS] at hf
    exact ((mem_filterByExtensions _ _ _).mp hf).2
  · intro f hf hnot
    rw [hS]
    exact (mem_filterByExtensions _ _ _).mpr ⟨hf, hnot⟩
  · intro f hf
    rw [hS, mem_filterByExtensions, ← hnorm f hf]
    simp [hf, List.mem_map]

/-- Witness for C5 (amended): with exclusion list `[".log"]` a `.DAT`
record passes the filter. -/
theorem extension_filter_correct_witness :
    (([".log"] : List String) ≠ []) ∧
    (⟨"b", "b__1.dat", "b", 0, 0, ".DAT"⟩ : FileInfo) ∈
      filterByExtensions (mkFileScanner (some [".log"]))
        [⟨"a", "a__1.log", "a", 0, 0, ".LOG"⟩, ⟨"b", "b__1.dat", "b", 0, 0, ".DAT"⟩] :=
  ⟨by decide,
    (extension_filter_correct [".log"]
        [⟨"a", "a__1.log", "a", 0, 0, ".LOG"⟩, ⟨"b", "b__1.dat", "b", 0, 0, ".DAT"⟩]
        (by decide) (by decide)).2.1
      ⟨"b", "b__1.dat", "b", 0, 0, ".DAT"⟩ (by decide) (by decide)⟩

/-- A Python `datetime` restricted to the fields used by the report
filename (`%Y%m%d-%H-%M`). -/
structure DateTime where
  year : Nat
  month : Nat
  day : Nat
  hour : Nat
  minute : Nat
deriving DecidableEq, Repr

/-- The ASCII digit character for `n % 10`. -/
def digitChar (n : Nat) : Char := Char.ofNat (48 + n % 10)

/-- Zero-padded two-digit decimal rendering (`%m`, `%d`, `%H`, `%M`). -/
def pad2 (n : Nat) : String := String.mk [digitChar (n / 10), digitChar n]

/-- Zero-padded four-digit decimal rendering (`%Y`; Python `datetime`
years are in 1..9999). -/
def pad4 (n : Nat) : String :=
  String.mk [digitChar (n / 1000), digitChar (n / 100), digitChar (n / 10), digitChar n]

/-- Embeds `timestamp.strftime('%Y%m%d-%H-%M')` as used by
`Reporter.format_filename` and `save_report`. -/
def strftimeReport (t : DateTime) : String :=
  pad4 t.year ++ pad2 t.month ++ pad2 t.day ++ "-" ++ pad2 t.hour ++ "-" ++ pad2 t.minute

/-- Embeds `Reporter.format_filename` (`src/src/reporter.py`, lines
104-106): `f"dirpurge_{timestamp.strftime('%Y%m%d-%H-%M')}.txt"`. -/
def format_filename (t : DateTime) : String :=
  "dirpurge_" ++ strftimeReport t ++ ".txt"

/-- The numeric value of an ASCII digit character, if it is one. -/
def charToDigit (c : Char) : Option Nat :=
  if 48 ≤ c.toNat ∧ c.toNat ≤ 57 then some (c.toNat - 48) else none

/-- Decode two digit characters as a decimal number. -/
def decode2 : List Char → Option Nat
  | [a, b] =>
    match charToDigit a, charToDigit b with
    | some x, some y => some (10 * x + y)
    | _, _ => none
  | _ => none

/-- Decode four digit characters as a decimal number. -/
def decode4 : List Char → Option Nat
  | [a, b, c, d] =>
    match charToDigit a, charToDigit b, charToDigit c, charToDigit d with
    | some w, some x, some y, some z => some (1000 * w + 100 * x + 10 * y + z)
    | _, _, _, _ => none
  | _ => none

/-- Follows the spec's words: the `parse` direction of the round-trip,
reading back `dirpurge_YYYYMMDD-HH-MM.txt` into its five fields. -/
def parseReportChars : List Char → Option (Nat × Nat × Nat × Nat × Nat)
  | p1 :: p2 :: p3 :: p4 :: p5 :: p6 :: p7 :: p8 :: p9 ::
      y1 :: y2 :: y3 :: y4 :: m1 :: m2 :: d1 :: d2 :: dash1 ::
      h1 :: h2 :: dash2 :: n1 :: n2 :: dot :: t1 :: t2 :: t3 :: [] =>
    if [p1, p2, p3, p4, p5, p6, p7, p8, p9] = "dirpurge_".data ∧
        dash1 = '-' ∧ dash2 = '-' ∧ [dot, t1, t2, t3] = ".txt".data then
      match decode4 [y1, y2, y3, y4], decode2 [m1, m2], decode2 [d1, d2],
          decode2 [h1, h2], decode2 [n1, n2] with
      | some y, some mo, some da, some h, some mi => some (y, mo, da, h, mi)
      | _, _, _, _, _ => none
    else none
  | _ => none

/-- Follows the spec's words: parse a report filename. -/
def parseReportFilename (s : String) : Option (Nat × Nat × Nat × Nat × Nat) :=
  parseReportChars s.data

/-- Numeric value of a digit character. -/
theorem digitChar_toNat (n : Nat) : (digitChar n).toNat = 48 + n % 10 := by
  have h : n % 10 < 10 := Nat.mod_lt _ (by omega)
  unfold digitChar
  interval_cases h2 : n % 10 <;> decide

/-- Decoding inverts the digit character. -/
theorem charToDigit_digitChar (n : Nat) : charToDigit (digitChar n) = some (n % 10) := by
  unfold charToDigit
  rw [digitChar_toNat]
  rw [if_pos (by omega)]
  congr 1
  omega

/-- C6: for every valid timestamp (Python `datetime` bounds: year ≤ 9999,
month ≤ 12, day ≤ 31, hour ≤ 23, minute ≤ 59), parsing the report
filename `dirpurge_YYYYMMDD-HH-MM.txt` produced by `format_filename`
recovers exactly the year, month, day, hour and minute, so the zero-padded
pattern is round-trippable. -/
theorem report_filename_roundtrip (t : DateTime)
    (hy : t.year ≤ 9999) (hm : t.month ≤ 12) (hd : t.day ≤ 31)
    (hh : t.hour ≤ 23) (hn : t.minute ≤ 59) :
    parseReportFilename (format_filename t) =
      some (t.year, t.month, t.day, t.hour, t.minute) := by
  have hdata : (format_filename t).data =
      'd' :: 'i' :: 'r' :: 'p' :: 'u' :: 'r' :: 'g' :: 'e' :: '_' ::
      digitChar (t.year / 1000) :: digitChar (t.year / 100) ::
      digitChar (t.year / 10) :: digitChar t.year ::
      digitChar (t.month / 10) :: digitChar t.month ::
      digitChar (t.day / 10) :: digitChar t.day :: '-' ::
      digitChar (t.hour / 10) :: digitChar t.hour :: '-' ::
      digitChar (t.minute / 10) :: digitChar t.minute ::
      '.' :: 't' :: 'x' :: 't' :: [] := rfl
  have h4 : decode4 [digitChar (t.year / 1000), digitChar (t.year / 100),
      digitChar (t.year / 10), digitChar t.year] = some t.year := by
    simp only [decode4, charToDigit_digitChar]
    congr 1
    omega
  have hmo : decode2 [digitChar (t.month / 10), digitChar t.month] = some t.month := by
    simp only [decode2, charToDigit_digitChar]
    congr 1
    omega
  have hda : decode2 [digitChar (t.day / 10), digitChar t.day] = some t.day := by
    simp only [decode2, charToDigit_digitChar]
    congr 1
    omega
  have hho : decode2 [digitChar (t.hour / 10), digitChar t.hour] = some t.hour := by
    simp only [decode2, charToDigit_digitChar]
    congr 1
    omega
  have hmi : decode2 [digitChar (t.minute / 10), digitChar t.minute] = some t.minute := by
    simp only [decode2, charToDigit_digitChar]
    congr 1
    omega
  show parseReportChars (format_filename t).data = _
  rw [hdata]
  simp only [parseReportChars]
  rw [if_pos (by decide)]
  rw [h4, hmo, hda, hho, hmi]

/-- Witness for C6 at a concrete timestamp. -/
theorem report_filename_roundtrip_witness :
    (2025 ≤ 9999 ∧ 3 ≤ 12 ∧ 7 ≤ 31 ∧ 9 ≤ 23 ∧ 5 ≤ 59) ∧
    parseReportFilename (format_filename ⟨2025, 3, 7, 9, 5⟩) = some (2025, 3, 7, 9, 5) :=
  ⟨by decide,
    report_filename_roundtrip ⟨2025, 3, 7, 9, 5⟩
      (by decide) (by decide) (by decide) (by decide) (by decide)⟩
